import Mathlib

/-!
Verification development for the provenance/OIDC lockfile action.

The TypeScript sources are shallowly embedded:
* `src/lib/provenance.ts` — the provenance resolver (`hasProvenance`,
  `getProvenanceDetails`, `hasTrustedPublisher`) and the attestation-payload
  extraction helpers (`extractRepoAndRef`, `normalizeRepository`,
  `parseRepoRefFromUri`, `normalizeRefToBranch`).
* `src/lib/git.ts` (the `run` orchestration part) — the downgrade-event loop.
* the lockfile module (`parseLockfile`, the five dialect parsers,
  `diffDependencySets`, `addVersion`, the yarn specifier helpers).

JavaScript `Map`s keyed by strings are embedded as association lists in
insertion order, JS `Set`s of strings as duplicate-free lists in insertion
order.  Network I/O is embedded as an explicit environment (`Registry`)
describing how each registry URL would answer, and each resolver returns,
besides its value, the updated cache and the ordered log of the URLs it
actually queried.
-/

/-! ## Caches (JS `Map<string, α>` in insertion order) -/

/-- A JS `Map` with string keys, in insertion order. -/
abbrev Cache (α : Type) : Type := List (String × α)

/-- `cache.get(k)` (and `cache.has(k)` via `Option.isSome`). -/
def cacheGet {α : Type} (c : Cache α) (k : String) : Option α :=
  (c.find? (fun p => p.1 = k)).map (·.2)

/-- `cache.set(k, v)`: overwrite in place if present, else append. -/
def cacheSet {α : Type} (c : Cache α) (k : String) (v : α) : Cache α :=
  if c.any (fun p => p.1 = k) then
    c.map (fun p => if p.1 = k then (k, v) else p)
  else
    c ++ [(k, v)]

/-! ## The registry environment

`httpJson` (src/lib/provenance.ts) resolves the parsed JSON body on a 2xx
status and rejects with the status code on other statuses, with a plain
error on network failure, and with a parse error on invalid JSON.  For one
`(name, version)` pair the resolvers contact up to three URLs: the two
attestation endpoints (the `npm/v1/attestations` and `v1/attestations`
shapes, in that fixed order) and the package metadata endpoint (`/<name>`).
`Registry` records how each of those URLs would answer during one call. -/

/-- The provenance-relevant content of a GitHub/SLSA attestation payload.
Each field is the value left after the source's `||`-fallback chains:
`workflow` stands for `(statement‖envelope‖att).predicate.buildDefinition
(‖buildConfig‖build).externalParameters(‖externalParametersJSON).workflow`,
`githubWorkflow` for the `….externalParameters.github.workflow` variant,
`configSourceUri` for `predicate.invocation.configSource.uri` when that is
a string, and `resolvedDependencyUris` for `buildDefinition
.resolvedDependencies[].uri` (`none` for entries whose `uri` is not a
string). -/
structure Attestation where
  workflowRepository : Option String := none
  workflowRef : Option String := none
  githubWorkflowRepository : Option String := none
  githubWorkflowRef : Option String := none
  hasWorkflowObj : Bool := false
  hasGithubWorkflowObj : Bool := false
  configSourceUri : Option String := none
  resolvedDependencyUris : List (Option String) := []
deriving DecidableEq, Repr

/-- Outcome of `httpJson` on an attestation endpoint.  `ok count atts`
is a 2xx response whose body has an optional numeric `count` field and an
`attestations` array (`[]` when the field is absent or not an array);
`notFound` is an HTTP 404 rejection; `err` is any other rejection
(network failure, other non-2xx status, unparseable body). -/
inductive AttResp where
  | ok (count : Option Nat) (atts : List Attestation)
  | notFound
  | err
deriving DecidableEq, Repr

/-- `_npmUser` record of a version entry in the package metadata. -/
structure NpmUser where
  trustedPublisher : Bool := false
  userName : Option String := none
  email : Option String := none
deriving DecidableEq, Repr

/-- `dist` record of a version entry.  `attestations = some l` means the
field is present with a truthy object/array value; a non-array object is
already wrapped as a one-element list (as `[ver.dist.attestations]` does
in the source). -/
structure DistRecord where
  provenance : Bool := false
  attestations : Option (List Attestation) := none
deriving DecidableEq, Repr

/-- One entry of `meta.versions` in the package metadata. -/
structure VersionRecord where
  provenance : Bool := false
  dist : Option DistRecord := none
  npmUser : Option NpmUser := none
deriving DecidableEq, Repr

/-- Outcome of `httpJson` on the package metadata endpoint: an error, or a
2xx body whose `versions[version]` entry is `ver`. -/
inductive MetaResp where
  | ok (ver : Option VersionRecord)
  | err
deriving DecidableEq, Repr

/-- How the registry answers the three URLs relevant to one
`(name, version)` lookup. -/
structure Registry where
  att0 : AttResp
  att1 : AttResp
  meta : MetaResp
deriving DecidableEq, Repr

/-- A network request actually issued, in order. -/
inductive Query where
  | att0
  | att1
  | meta
deriving DecidableEq, Repr

/-! ## `hasProvenance` (src/lib/provenance.ts, lines 6–61) -/

/-- `typeof res?.count === 'number' ? res.count :
(Array.isArray(res?.attestations) ? res.attestations.length : 0)` for a
successful attestation response. -/
def attCount (count : Option Nat) (atts : List Attestation) : Nat :=
  count.getD atts.length

/-- Truthiness of `ver.provenance || ver.dist && (ver.dist.provenance ||
ver.dist.attestations && typeof object/array)` inside
`Boolean(ver && …)` in the metadata fallback of `hasProvenance`. -/
def metaHasProvenance (ver : Option VersionRecord) : Bool :=
  match ver with
  | none => false
  | some v =>
    v.provenance ||
      (match v.dist with
       | none => false
       | some d => d.provenance || d.attestations.isSome)

/-- `hasProvenance(name, version, cache)`.  The two-URL loop is unrolled
(the source's `attestUrls` always has exactly two entries).  Returns the
boolean result, the cache after the call, and the log of queried URLs. -/
def hasProvenance (name version : String) (reg : Registry) (cache : Cache Bool) :
    Bool × Cache Bool × List Query :=
  let key := name ++ "@" ++ version
  match cacheGet cache key with
  | some b => (b, cache, [])
  | none =>
    match reg.att0 with
    | .ok count atts =>
      if attCount count atts > 0 then
        (true, cacheSet cache key true, [.att0])
      else
        (false, cacheSet cache key false, [.att0])
    | .notFound => (false, cacheSet cache key false, [.att0])
    | .err =>
      match reg.att1 with
      | .ok count atts =>
        if attCount count atts > 0 then
          (true, cacheSet cache key true, [.att0, .att1])
        else
          (false, cacheSet cache key false, [.att0, .att1])
      | .notFound => (false, cacheSet cache key false, [.att0, .att1])
      | .err =>
        match reg.meta with
        | .ok ver =>
          (metaHasProvenance ver, cacheSet cache key (metaHasProvenance ver),
            [.att0, .att1, .meta])
        | .err => (false, cacheSet cache key false, [.att0, .att1, .meta])

/-! ## `hasTrustedPublisher` (src/lib/provenance.ts, lines 134–150) -/

/-- `Boolean(ver && ver._npmUser && ver._npmUser.trustedPublisher) ||
Boolean(ver && … name === 'GitHub Actions' && email === OIDC no-reply)`. -/
def metaTrustedPublisher (ver : Option VersionRecord) : Bool :=
  match ver with
  | none => false
  | some v =>
    match v.npmUser with
    | none => false
    | some u =>
      u.trustedPublisher ||
        (u.userName = some "GitHub Actions" &&
          u.email = some "npm-oidc-no-reply@github.com")

/-- `hasTrustedPublisher(name, version, cache)`: single metadata fetch,
any failure yields `false`; result cached. -/
def hasTrustedPublisher (name version : String) (reg : Registry) (cache : Cache Bool) :
    Bool × Cache Bool × List Query :=
  let key := name ++ "@" ++ version
  match cacheGet cache key with
  | some b => (b, cache, [])
  | none =>
    match reg.meta with
    | .ok ver =>
      (metaTrustedPublisher ver, cacheSet cache key (metaTrustedPublisher ver), [.meta])
    | .err => (false, cacheSet cache key false, [.meta])

/-! ## String helpers shared by the embeddings -/

/-- `s.startsWith(pre)` as a structurally-recursive check (the core
`String.startsWith` goes through `Substring` code the kernel does not
reduce). -/
def strStartsWith (s pre : String) : Bool :=
  pre.toList.isPrefixOf s.toList

/-- `s.endsWith(suf)`, structurally recursive. -/
def strEndsWith (s suf : String) : Bool :=
  suf.toList.isSuffixOf s.toList

/-- One step of `strSplitOn` (fuel-indexed; consumes at least one
character per step). -/
def splitOnCs (sep : List Char) : Nat -> List Char -> List Char -> List (List Char)
  | 0, cs, acc => [acc.reverse ++ cs]
  | _ + 1, [], acc => [acc.reverse]
  | f + 1, c :: cs, acc =>
    if sep.isPrefixOf (c :: cs) then
      acc.reverse :: splitOnCs sep f ((c :: cs).drop sep.length) []
    else splitOnCs sep f cs (c :: acc)

/-- `s.split(sep)` for a non-empty separator, scanning left to right over
non-overlapping occurrences (the shared semantics of JS `split` and the
core `String.splitOn`, which the kernel does not reduce). -/
def strSplitOn (s sep : String) : List String :=
  (splitOnCs sep.toList (s.toList.length + 1) s.toList []).map String.mk

/-- Index (in characters) of the first occurrence of `pat` in a character
list, like JS `indexOf` for substrings (`none` for `-1`). -/
def subIdx (pat : List Char) : List Char → Option Nat
  | [] => if pat.isEmpty then some 0 else none
  | c :: rest =>
    if pat.isPrefixOf (c :: rest) then some 0
    else (subIdx pat rest).map (· + 1)

/-- JS `s.indexOf(pat)` with `none` for `-1`, in character positions. -/
def strIdxOfSub (s pat : String) : Option Nat :=
  subIdx pat.toList s.toList

/-- JS `s.lastIndexOf(c)` with `none` for `-1`, in character positions. -/
def lastIdxOfChar (s : String) (c : Char) : Option Nat :=
  ((s.toList.enum.filter (fun p => p.2 = c)).map (·.1)).getLast?

/-- JS `s.replace(/\.git$/, '')`. -/
def stripDotGit (s : String) : String :=
  if strEndsWith s ".git" then s.dropRight 4 else s

/-- JS `s.replace(/^git\+/, '')`. -/
def stripGitPlus (s : String) : String :=
  if strStartsWith s "git+" then s.drop 4 else s

/-- JS string truthiness for a `string | undefined` value: present and
non-empty. -/
def strTruthy : Option String → Bool
  | some s => !s.isEmpty
  | none => false

/-- JS `a || b` on `string | undefined` values. -/
def jsOrStr (a b : Option String) : Option String :=
  if strTruthy a then a else b

/-! ## URL parsing and repository normalization
(src/lib/provenance.ts, lines 228–274) -/

/-- Hostname and pathname of a parsed URL. -/
structure UrlParts where
  host : String
  path : String
deriving DecidableEq, Repr

/-- Model of the WHATWG `new URL(input)` constructor used by the source,
restricted to the `scheme://host/path` shapes the provenance URIs take:
the input parses when it has a `://` separator preceded by a non-empty
scheme and followed by a non-empty hostname; the pathname is everything
from the first `/` after the host.  Inputs without that shape (bare
`owner/repo` tokens, `::::`, free text) fail to parse, which the source
observes as a thrown error. -/
def parseUrl (s : String) : Option UrlParts :=
  match strIdxOfSub s "://" with
  | none => none
  | some i =>
    if i = 0 then none
    else
      let rest := s.drop (i + 3)
      let host := String.mk (rest.toList.takeWhile (fun c => c ≠ '/'))
      let path := String.mk (rest.toList.dropWhile (fun c => c ≠ '/'))
      if host.isEmpty then none else some ⟨host, path⟩

/-- The test `/^[^\s\/]+\/[^^\s\/]+$/.test(repo)` of `normalizeRepository`:
a bare `owner/repo` token (exactly one slash; no whitespace; no `^` in the
second segment). -/
def bareRepoMatch (repo : String) : Bool :=
  match strSplitOn repo "/" with
  | [a, b] =>
    !a.isEmpty && a.toList.all (fun c => !c.isWhitespace) &&
      !b.isEmpty && b.toList.all (fun c => !c.isWhitespace && c ≠ '^')
  | _ => false

/-- `owner/repo` from the first two non-empty pathname segments after
stripping a trailing `.git`, shared by `normalizeRepository` and
`parseRepoRefFromUri` (`url.pathname.replace(/\.git$/, '')
.split('/').filter(Boolean)`). -/
def repoFromPath (path : String) : Option String :=
  match (strSplitOn (stripDotGit path) "/").filter (fun seg => !seg.isEmpty) with
  | p0 :: p1 :: _ => some (p0 ++ "/" ++ p1)
  | _ => none

/-- `normalizeRepository(repo)` (src/lib/provenance.ts, lines 228–241). -/
def normalizeRepository (repo : String) : String :=
  if bareRepoMatch repo then stripDotGit repo
  else
    match parseUrl (stripGitPlus repo) with
    | some u =>
      if u.host = "github.com" || strEndsWith u.host ".github.com" then
        match repoFromPath u.path with
        | some r => r
        | none => repo
      else repo
    | none => repo

/-- Result shape of `parseRepoRefFromUri`. -/
structure RepoRef where
  repository : String
  ref : Option String
deriving DecidableEq, Repr

/-- `parseRepoRefFromUri(uri)` (src/lib/provenance.ts, lines 243–266):
strip a `git+` scheme marker, split a `@<ref>` suffix found after the
`://` separator, parse the rest as a URL, and accept only the exact hosts
`github.com` and `www.github.com`. -/
def parseRepoRefFromUri (uri : String) : Option RepoRef :=
  let cleaned := stripGitPlus uri
  -- `at > cleaned.indexOf('://') + 2`, with `indexOf` giving -1 when absent
  let threshold : Int :=
    match strIdxOfSub cleaned "://" with
    | some i => (i : Int) + 2
    | none => 1
  let split :=
    match lastIdxOfChar cleaned '@' with
    | some ai =>
      if (ai : Int) > threshold then (cleaned.take ai, some (cleaned.drop (ai + 1)))
      else (cleaned, (none : Option String))
    | none => (cleaned, none)
  match parseUrl split.1 with
  | none => none
  | some u =>
    if u.host = "github.com" || u.host = "www.github.com" then
      match repoFromPath u.path with
      | some r => some ⟨r, split.2⟩
      | none => none
    else none

/-- `normalizeRefToBranch(ref)` (src/lib/provenance.ts, lines 268–274). -/
def normalizeRefToBranch : Option String → Option String
  | none => none
  | some ref =>
    if ref.isEmpty then none
    else if strStartsWith ref "refs/heads/" then some (ref.drop 11)
    else none

/-! ## `extractRepoAndRef` (src/lib/provenance.ts, lines 187–226) -/

/-- Result shape of `extractRepoAndRef`: either component may be absent. -/
structure ExtractedRepoRef where
  repository : Option String := none
  ref : Option String := none
deriving DecidableEq, Repr

/-- One step of the `resolvedDependencies` scan of `extractRepoAndRef`:
the repository parsed from a dependency entry's `uri` when that is a
truthy string parsing to a GitHub repository. -/
def depUriRepo (u? : Option String) : Option String :=
  match u? with
  | some u =>
    if u.isEmpty then none
    else (parseRepoRefFromUri u).map (·.repository)
  | none => none

/-- The first two stages of `extractRepoAndRef(att)`: workflow fields
(the `workflow` object wins over the `github.workflow` variant, both being
truthy objects when present), then `configSource.uri` for whichever of
repository/ref is still missing. -/
def extractBeforeDeps (att : Attestation) : ExtractedRepoRef :=
  -- `const workflow = ext?.workflow || ext?.github?.workflow || {}`
  let wfRepo : Option String :=
    if att.hasWorkflowObj then att.workflowRepository
    else if att.hasGithubWorkflowObj then att.githubWorkflowRepository
    else none
  let wfRef : Option String :=
    if att.hasWorkflowObj then att.workflowRef
    else if att.hasGithubWorkflowObj then att.githubWorkflowRef
    else none
  let repository0 : Option String := wfRepo.map normalizeRepository
  let ref0 : Option String := wfRef
  -- `if (!repository || !ref) { const parsed = uri ? parseRepoRefFromUri(uri) … }`
  if !strTruthy repository0 || !strTruthy ref0 then
    let parsed : Option RepoRef :=
      if strTruthy att.configSourceUri then
        parseRepoRefFromUri (att.configSourceUri.getD "")
      else none
    match parsed with
    | some pr =>
      { repository := jsOrStr repository0 (some pr.repository)
        ref := jsOrStr ref0 pr.ref }
    | none => { repository := repository0, ref := ref0 }
  else { repository := repository0, ref := ref0 }

/-- The final `resolvedDependencies` stage of `extractRepoAndRef`:
`if (!repository) { … resolvedDependencies … }`. -/
def extractRepoAndRef (att : Attestation) : ExtractedRepoRef :=
  let afterUri := extractBeforeDeps att
  let finalRepository : Option String :=
    if strTruthy afterUri.repository then afterUri.repository
    else
      match att.resolvedDependencyUris.findSome? depUriRepo with
      | some r => some r
      | none => afterUri.repository
  { repository := finalRepository, ref := afterUri.ref }

/-! ## `getProvenanceDetails` (src/lib/provenance.ts, lines 63–132) -/

/-- `ProvenanceDetails` (src/lib/provenance.ts, line 4). -/
structure ProvenanceDetails where
  has : Bool := false
  repository : Option String := none
  ref : Option String := none
  branch : Option String := none
deriving DecidableEq, Repr

/-- The attestation scan shared by both phases of `getProvenanceDetails`:
for each attestation, take repository/ref when one of them is truthy,
recompute the branch when a ref is present, and stop as soon as both
repository and branch are resolved. -/
def scanAtts : ProvenanceDetails → List Attestation → ProvenanceDetails
  | d, [] => d
  | d, att :: rest =>
    let er := extractRepoAndRef att
    if strTruthy er.repository || strTruthy er.ref then
      let d1 : ProvenanceDetails :=
        { d with repository := jsOrStr er.repository d.repository
                 ref := jsOrStr er.ref d.ref }
      let d2 : ProvenanceDetails :=
        if strTruthy d1.ref then { d1 with branch := normalizeRefToBranch d1.ref } else d1
      if strTruthy d2.repository && strTruthy d2.branch then d2
      else scanAtts d2 rest
    else scanAtts d rest

/-- `getProvenanceDetails(name, version, cache)`.  The two-URL loop is
unrolled; an empty attestation list is `continue` (inconclusive), a 404 is
an immediate cached return, and the metadata fallback runs only when no
endpoint produced attestations (`!details.has`). -/
def getProvenanceDetails (name version : String) (reg : Registry)
    (cache : Cache ProvenanceDetails) :
    ProvenanceDetails × Cache ProvenanceDetails × List Query :=
  let key := name ++ "@" ++ version
  match cacheGet cache key with
  | some d => (d, cache, [])
  | none =>
    let finish : ProvenanceDetails → List Query →
        ProvenanceDetails × Cache ProvenanceDetails × List Query :=
      fun d log => (d, cacheSet cache key d, log)
    let fallback : List Query →
        ProvenanceDetails × Cache ProvenanceDetails × List Query :=
      fun log =>
        match reg.meta with
        | .ok ver =>
          let d : ProvenanceDetails :=
            match ver with
            | some v =>
              match v.dist with
              | some dist =>
                match dist.attestations with
                | some atts =>
                  if atts.length ≠ 0 then scanAtts { has := true } atts else {}
                | none => {}
              | none => {}
            | none => {}
          finish d (log ++ [.meta])
        | .err => finish {} (log ++ [.meta])
    let second : List Query → ProvenanceDetails × Cache ProvenanceDetails × List Query :=
      fun log =>
        match reg.att1 with
        | .ok _ atts1 =>
          if atts1.isEmpty then fallback (log ++ [.att1])
          else finish (scanAtts { has := true } atts1) (log ++ [.att1])
        | .notFound => finish {} (log ++ [.att1])
        | .err => fallback (log ++ [.att1])
    match reg.att0 with
    | .ok _ atts =>
      if atts.isEmpty then second [.att0]
      else finish (scanAtts { has := true } atts) [.att0]
    | .notFound => finish {} [.att0]
    | .err => second [.att0]

/-! ## The downgrade-event loop (src/lib/git.ts, `run`, lines 78–139)

Within one run the three resolvers are memoized per `name@version`
(see the cache invariants above), so for a fixed package the loop observes
each version's provenance and trusted-publisher status as a fixed boolean.
The loop is embedded against those two oracles. -/

inductive DowngradeType where
  | provenance
  | trusted_publisher
deriving DecidableEq, Repr

/-- `DowngradeEvent` (src/lib/git.ts, line 82); `from`/`to` are named
`fromVersion`/`toVersion` here because `from` is a Lean keyword. -/
structure DowngradeEvent where
  name : String
  fromVersion : String
  toVersion : String
  downgradeType : DowngradeType
  keptProvenance : Option Bool := none
deriving DecidableEq, Repr

/-- `PackageChange`: `{ name, previous, current }` with the JS `Set`s
embedded as duplicate-free lists in insertion order. -/
structure PackageChange where
  name : String
  previous : List String
  current : List String
deriving DecidableEq, Repr

/-- The events pushed for one newly introduced version (src/lib/git.ts,
lines 96–121): when the new version lacks trusted-publisher status, the
first previous version with it yields a `trusted_publisher` event carrying
`keptProvenance`; when the new version lacks provenance, the first
previous version with provenance yields a `provenance` event.  (The
repository/branch warnings of lines 123–137 go to the separate `warnings`
list, never to `events`, and are not modelled here.) -/
def newVersionEvents (name : String) (previous : List String)
    (hasProv hasTP : String → Bool) (v : String) : List DowngradeEvent :=
  let hasProvNew := hasProv v
  let hasTPNew := hasTP v
  let tpEvents : List DowngradeEvent :=
    if hasTPNew then []
    else
      match previous.find? hasTP with
      | some p => [⟨name, p, v, .trusted_publisher, some hasProvNew⟩]
      | none => []
  let provEvents : List DowngradeEvent :=
    if hasProvNew then []
    else
      match previous.find? hasProv with
      | some p => [⟨name, p, v, .provenance, none⟩]
      | none => []
  tpEvents ++ provEvents

/-- The events pushed for one `PackageChange` (src/lib/git.ts,
lines 88–139): changes with an empty side are skipped, and only versions
of `current` not already in `previous` are examined, in iteration order. -/
def processChange (c : PackageChange) (hasProv hasTP : String → Bool) :
    List DowngradeEvent :=
  if c.previous.isEmpty || c.current.isEmpty then []
  else
    (c.current.filter (fun v => !c.previous.contains v)).flatMap
      (newVersionEvents c.name c.previous hasProv hasTP)

/-! ## `VersionsSet` and the differ -/

/-- `VersionsSet = Map<string, Set<string>>`, embedded as an association
list in insertion order whose value lists are duplicate-free and in
insertion order. -/
abbrev VersionsSet : Type := List (String × List String)

/-- The version list of `name` (`map.get(name)`, with the empty set for a
missing key as `diffDependencySets` does). -/
def lookupVersions (m : VersionsSet) (name : String) : List String :=
  ((m.find? (fun p => p.1 = name)).map (·.2)).getD []

/-- `addVersion(map, name, version)`: create the set on first use, then
`set.add(version)` (a no-op when already present). -/
def addVersion (m : VersionsSet) (name version : String) : VersionsSet :=
  if m.any (fun p => p.1 = name) then
    m.map (fun p =>
      if p.1 = name then
        (p.1, if p.2.contains version then p.2 else p.2 ++ [version])
      else p)
  else m ++ [(name, [version])]

/-- `setsEqual(a, b)`: same size and every element of `a` in `b`. -/
def setsEqual (a b : List String) : Bool :=
  a.length == b.length && a.all (fun v => b.contains v)

/-- Insertion into `new Set(...)` of key names: first occurrence wins. -/
def insertName (acc : List String) (n : String) : List String :=
  if acc.contains n then acc else acc ++ [n]

/-- `new Set([...prev.keys(), ...curr.keys()])` in iteration order. -/
def unionKeys (prev curr : VersionsSet) : List String :=
  (prev.map Prod.fst ++ curr.map Prod.fst).foldl insertName []

/-- `diffDependencySets(prev, curr)`: one `PackageChange` per name in the
union of the key sets whose version sets are not `setsEqual`. -/
def diffDependencySets (prev curr : VersionsSet) : List PackageChange :=
  (unionKeys prev curr).filterMap (fun n =>
    let a := lookupVersions prev n
    let b := lookupVersions curr n
    if setsEqual a b then none else some ⟨n, a, b⟩)

/-! ## Line-based lockfile parsers -/

/-- `content.split(/\r?\n/)`. -/
def splitLines (content : String) : List String :=
  (strSplitOn content "\n").map (fun l => if strEndsWith l "\r" then l.dropRight 1 else l)

/-- JS `trimEnd()`. -/
def trimEndJs (s : String) : String :=
  String.mk ((s.toList.reverse.dropWhile Char.isWhitespace).reverse)

/-- JS `trimStart()`. -/
def trimStartJs (s : String) : String :=
  String.mk (s.toList.dropWhile Char.isWhitespace)

/-- JS `trim()`. -/
def trimJs (s : String) : String :=
  trimEndJs (trimStartJs s)

/-- First char is whitespace (`/^\s/.test(line)`). -/
def firstCharWs (l : String) : Bool :=
  match l.toList with
  | [] => false
  | c :: _ => c.isWhitespace

/-- The double-quote character. -/
def dQuote : Char := '"'

/-- The single-quote (apostrophe) character. -/
def sQuote : Char := Char.ofNat 39

/-- `s.replace(/^q|q$/g, '')` for a quote character `q`: strip one leading
and one trailing occurrence, each independently if present. -/
def stripEdgeQuotes (q : Char) (s : String) : String :=
  let s1 := if strStartsWith s (String.mk [q]) then s.drop 1 else s
  if strEndsWith s1 (String.mk [q]) then s1.dropRight 1 else s1

/-- Strip an exact literal from the front of a character list, or fail. -/
def dropLit : List Char → List Char → Option (List Char)
  | [], cs => some cs
  | _ :: _, [] => none
  | p :: ps, c :: cs => if c = p then dropLit ps cs else none

/-! ### pnpm (`parsePnpmLock`, src/unnamed/part_000, lines 345–384) -/

/-- `/^packages:\s*$/.test(line)`. -/
def isPackagesHeader (l : String) : Bool :=
  strStartsWith l "packages:" && (l.toList.drop 9).all Char.isWhitespace

/-- `/^[^\s].*:$/.test(line)`: a top-level section header. -/
def isTopSection (l : String) : Bool :=
  match l.toList with
  | [] => false
  | [_] => false
  | c :: _ :: _ => !c.isWhitespace && strEndsWith l ":"

/-- The capture of `/^\s{2}([^\s].*?):\s*$/.exec(line)`: two whitespace
characters, a key starting with a non-whitespace character, a colon, then
only trailing whitespace.  The lazy group together with the trailing
`\s*$` makes the matched colon the last non-whitespace character. -/
def pnpmEntryKey (l : String) : Option String :=
  let r := trimEndJs l
  match r.toList with
  | c0 :: c1 :: c2 :: _ :: _ =>
    if c0.isWhitespace && c1.isWhitespace && !c2.isWhitespace && strEndsWith r ":" then
      some ((r.drop 2).dropRight 1)
    else none
  | _ => none

/-- One pnpm `packages:` entry: strip a leading `/` (before looking at
quotes), strip surrounding quotes, cut a `(peer)` suffix, split on the
last `@`, skip empty versions and keys whose only `@` is at position 0. -/
def pnpmAddEntry (acc : VersionsSet) (key : String) : VersionsSet :=
  let key1 := if strStartsWith key "/" then key.drop 1 else key
  let key2 :=
    if (strStartsWith key1 (String.mk [dQuote]) && strEndsWith key1 (String.mk [dQuote])) ||
        (strStartsWith key1 (String.mk [sQuote]) && strEndsWith key1 (String.mk [sQuote])) then
      (key1.drop 1).dropRight 1
    else key1
  let core :=
    match strIdxOfSub key2 "(" with
    | some i => key2.take i
    | none => key2
  match lastIdxOfChar core '@' with
  | none => acc
  | some a =>
    if a = 0 then acc
    else
      let name := core.take a
      let version := trimJs (core.drop (a + 1))
      if version.isEmpty then acc else addVersion acc name version

/-- The `parsePnpmLock` line loop with its `inPackages` flag. -/
def parsePnpmGo : List String → Bool → VersionsSet → VersionsSet
  | [], _, acc => acc
  | l :: rest, inPackages, acc =>
    if !inPackages then
      parsePnpmGo rest (isPackagesHeader l) acc
    else if isTopSection l then
      parsePnpmGo rest (isPackagesHeader l) acc
    else
      match pnpmEntryKey l with
      | none => parsePnpmGo rest true acc
      | some key => parsePnpmGo rest true (pnpmAddEntry acc key)

/-- `parsePnpmLock(content)`. -/
def parsePnpmLock (content : String) : VersionsSet :=
  parsePnpmGo (splitLines content) false []

/-! ### yarn v1 (`parseYarnV1Lock`, src/unnamed/part_000, lines 386–426) -/

/-- `yarnV1SpecifierToName(spec)`: everything before the last `@`
(`undefined` when the last `@` is absent or at position 0). -/
def yarnV1SpecifierToName (spec : String) : Option String :=
  match lastIdxOfChar spec '@' with
  | none => none
  | some a => if a = 0 then none else some (spec.take a)

/-- The capture of `/^\s{2}version\s+"([^"]+)"/.exec(line)`. -/
def matchYarnV1Version (l : String) : Option String :=
  match l.toList with
  | c0 :: c1 :: rest =>
    if c0.isWhitespace && c1.isWhitespace then
      match dropLit "version".toList rest with
      | none => none
      | some rest2 =>
        let ws := rest2.takeWhile Char.isWhitespace
        if ws.isEmpty then none
        else
          match rest2.dropWhile Char.isWhitespace with
          | c :: rest3 =>
            if c = dQuote then
              let inner := rest3.takeWhile (fun ch => ch ≠ dQuote)
              match rest3.dropWhile (fun ch => ch ≠ dQuote) with
              | _ :: _ => if inner.isEmpty then none else some (String.mk inner)
              | [] => none
            else none
          | [] => none
    else none
  | _ => none

/-- The header-collection inner loop: push lines until the line after the
pushed one is empty/absent or starts with two spaces. -/
def collectHeader : List String → List String × List String
  | [] => ([], [])
  | hl :: rest =>
    match rest with
    | [] => ([hl], [])
    | nxt :: _ =>
      if nxt.isEmpty || strStartsWith nxt "  " then ([hl], rest)
      else
        let pr := collectHeader rest
        (hl :: pr.1, pr.2)

/-- `headerLines.join('\n').split(',\n').map(trim).map(strip ':')
.map(strip '"')`. -/
def yarnV1Specifiers (headerLines : List String) : List String :=
  (strSplitOn (String.intercalate "\n" headerLines) ",\n").map (fun s =>
    let t := trimJs s
    let t2 := if strEndsWith t ":" then t.dropRight 1 else t
    stripEdgeQuotes dQuote t2)

/-- The block-body loop: scan until a blank line or an unindented
header-like line, remembering the last `version "…"` capture. -/
def yarnV1Body : List String → Option String → Option String × List String
  | [], v => (v, [])
  | l :: rest, v =>
    if l.isEmpty || (!strStartsWith l " " && strEndsWith (trimEndJs l) ":") then (v, l :: rest)
    else
      yarnV1Body rest
        (match matchYarnV1Version l with
         | some x => some x
         | none => v)

/-- The outer `parseYarnV1Lock` loop (fuel-indexed; every iteration
consumes at least the header line, so `lines.length + 1` fuel suffices). -/
def parseYarnV1Go : Nat → List String → VersionsSet → VersionsSet
  | 0, _, acc => acc
  | _ + 1, [], acc => acc
  | fuel + 1, l :: rest, acc =>
    if l.isEmpty || firstCharWs l then parseYarnV1Go fuel rest acc
    else if !strEndsWith (trimEndJs l) ":" then parseYarnV1Go fuel rest acc
    else
      let hr := collectHeader (l :: rest)
      let specs := yarnV1Specifiers hr.1
      let bv := yarnV1Body hr.2 none
      match bv.1 with
      | none => parseYarnV1Go fuel bv.2 acc
      | some v =>
        parseYarnV1Go fuel bv.2
          (specs.foldl
            (fun m s =>
              match yarnV1SpecifierToName s with
              | some n => addVersion m n v
              | none => m)
            acc)

/-- `parseYarnV1Lock(content)`. -/
def parseYarnV1Lock (content : String) : VersionsSet :=
  let lines := splitLines content
  parseYarnV1Go (lines.length + 1) lines []

/-! ### yarn berry (`parseYarnBerryLock`, src/unnamed/part_000,
lines 428–471) -/

/-- `yarnBerrySpecifierToName(spec)`: strip quotes, then for scoped
descriptors the name runs to the second `@`, otherwise to the first. -/
def yarnBerrySpecifierToName (spec : String) : Option String :=
  let s := stripEdgeQuotes sQuote (stripEdgeQuotes dQuote spec)
  if strStartsWith s "@" then
    match subIdx ['@'] (s.toList.drop 1) with
    | some i => some (s.take (i + 1))
    | none => none
  else
    match subIdx ['@'] s.toList with
    | some i => if i = 0 then none else some (s.take i)
    | none => none

/-- One quoted alternative `q([^q]+)q` of the berry version regex. -/
def quotedAlt (q : Char) (cs : List Char) : Option String :=
  match cs with
  | c :: rest =>
    if c = q then
      let inner := rest.takeWhile (fun ch => ch ≠ q)
      match rest.dropWhile (fun ch => ch ≠ q) with
      | _ :: _ => if inner.isEmpty then none else some (String.mk inner)
      | [] => none
    else none
  | [] => none

/-- The capture of
`/^\s{2}version:\s*(?:"([^\"]+)"|'([^']+)'|([^\s#]+))/.exec(line)`;
when a quoted alternative fails, the bare-token alternative can still
match starting at the same position (regex backtracking). -/
def matchYarnBerryVersion (l : String) : Option String :=
  match l.toList with
  | c0 :: c1 :: rest =>
    if c0.isWhitespace && c1.isWhitespace then
      match dropLit "version:".toList rest with
      | none => none
      | some rest2 =>
        let rest3 := rest2.dropWhile Char.isWhitespace
        let bareAlt : Option String :=
          let tok := rest3.takeWhile (fun ch => !ch.isWhitespace && ch ≠ '#')
          if tok.isEmpty then none else some (String.mk tok)
        ((quotedAlt dQuote rest3).orElse (fun _ => quotedAlt sQuote rest3)).orElse
          (fun _ => bareAlt)
    else none
  | _ => none

/-- The berry block-body loop: scan indented lines for a version. -/
def yarnBerryBody : List String → Option String → Option String × List String
  | [], v => (v, [])
  | l :: rest, v =>
    if l.isEmpty || !strStartsWith l " " then (v, l :: rest)
    else
      yarnBerryBody rest
        (match matchYarnBerryVersion l with
         | some x => some x
         | none => v)

/-- The outer `parseYarnBerryLock` loop (fuel-indexed as for yarn v1). -/
def parseYarnBerryGo : Nat → List String → VersionsSet → VersionsSet
  | 0, _, acc => acc
  | _ + 1, [], acc => acc
  | fuel + 1, l :: rest, acc =>
    if l.isEmpty || strStartsWith (trimStartJs l) "#" then parseYarnBerryGo fuel rest acc
    else if !(strStartsWith l (String.mk [dQuote]) || strStartsWith l (String.mk [sQuote])) then
      parseYarnBerryGo fuel rest acc
    else if !strEndsWith (trimEndJs l) ":" then parseYarnBerryGo fuel rest acc
    else
      let specs := (strSplitOn (trimJs l) ",").map (fun s =>
        let t := trimJs s
        let t2 := if strEndsWith t ":" then t.dropRight 1 else t
        stripEdgeQuotes sQuote (stripEdgeQuotes dQuote t2))
      let bv := yarnBerryBody rest none
      match bv.1 with
      | none => parseYarnBerryGo fuel bv.2 acc
      | some v =>
        parseYarnBerryGo fuel bv.2
          (specs.foldl
            (fun m s =>
              match yarnBerrySpecifierToName s with
              | some n => addVersion m n v
              | none => m)
            acc)

/-- `parseYarnBerryLock(content)`. -/
def parseYarnBerryLock (content : String) : VersionsSet :=
  let lines := splitLines content
  parseYarnBerryGo (lines.length + 1) lines []

/-! ### JSON (for the npm and bun parsers)

`JSON.parse` is a JS builtin; it is modelled by an executable
recursive-descent parser over the JSON grammar.  Numbers are consumed per
the grammar but truncated to their integer part, which the lockfile
parsers never inspect. -/

/-- Opening brace character. -/
def lbraceC : Char := Char.ofNat 123

/-- Closing brace character. -/
def rbraceC : Char := Char.ofNat 125

/-- JSON values. -/
inductive Json where
  | null
  | bool (b : Bool)
  | num (n : Int)
  | str (s : String)
  | arr (elems : List Json)
  | obj (fields : List (String × Json))

/-- `j[k]` for an object (`undefined` otherwise). -/
def jGet : Json → String → Option Json
  | Json.obj fields, k => (fields.find? (fun p => p.1 = k)).map (·.2)
  | _, _ => none

/-- `j[k]` when it is a string. -/
def jGetStr (j : Json) (k : String) : Option String :=
  match jGet j k with
  | some (Json.str s) => some s
  | _ => none

/-- JSON whitespace. -/
def jsonWs (c : Char) : Bool :=
  c = ' ' || c = '\t' || c = '\n' || c = '\r'

/-- Hex digit value. -/
def hexVal (c : Char) : Option Nat :=
  if '0' ≤ c ∧ c ≤ '9' then some (c.toNat - 48)
  else if 'a' ≤ c ∧ c ≤ 'f' then some (c.toNat - 87)
  else if 'A' ≤ c ∧ c ≤ 'F' then some (c.toNat - 55)
  else none

/-- The body of a JSON string (after the opening quote), with the
standard escapes. -/
def parseJString : Nat → List Char → List Char → Option (String × List Char)
  | 0, _, _ => none
  | _ + 1, [], _ => none
  | f + 1, c :: rest, acc =>
    if c = dQuote then some (String.mk acc.reverse, rest)
    else if c = '\\' then
      match rest with
      | [] => none
      | e :: rest2 =>
        if e = dQuote || e = '\\' || e = '/' then parseJString f rest2 (e :: acc)
        else if e = 'n' then parseJString f rest2 ('\n' :: acc)
        else if e = 't' then parseJString f rest2 ('\t' :: acc)
        else if e = 'r' then parseJString f rest2 ('\r' :: acc)
        else if e = 'b' then parseJString f rest2 (Char.ofNat 8 :: acc)
        else if e = 'f' then parseJString f rest2 (Char.ofNat 12 :: acc)
        else if e = 'u' then
          match rest2 with
          | h1 :: h2 :: h3 :: h4 :: rest3 =>
            match hexVal h1, hexVal h2, hexVal h3, hexVal h4 with
            | some a, some b, some cc, some d =>
              parseJString f rest3 (Char.ofNat (((a * 16 + b) * 16 + cc) * 16 + d) :: acc)
            | _, _, _, _ => none
          | _ => none
        else none
    else parseJString f rest (c :: acc)

/-- One or more decimal digits. -/
def parseDigits (cs : List Char) : Option (Nat × List Char) :=
  let ds := cs.takeWhile Char.isDigit
  if ds.isEmpty then none
  else some (ds.foldl (fun n c => n * 10 + (c.toNat - 48)) 0, cs.dropWhile Char.isDigit)

/-- A JSON number, truncated to its integer part. -/
def parseJNumber (cs : List Char) : Option (Json × List Char) :=
  let (neg, cs1) :=
    match cs with
    | '-' :: rest => (true, rest)
    | _ => (false, cs)
  match parseDigits cs1 with
  | none => none
  | some (n, cs2) =>
    let cs3 :=
      match cs2 with
      | '.' :: rest =>
        match parseDigits rest with
        | some (_, r) => r
        | none => rest
      | _ => cs2
    let cs4 :=
      match cs3 with
      | e :: rest =>
        if e = 'e' || e = 'E' then
          let rest' :=
            match rest with
            | s :: r2 => if s = '+' || s = '-' then r2 else rest
            | [] => rest
          match parseDigits rest' with
          | some (_, r) => r
          | none => rest'
        else cs3
      | [] => cs3
    some (Json.num (if neg then -(n : Int) else (n : Int)), cs4)

mutual

/-- A JSON value (fuel-indexed recursive descent). -/
def parseJVal : Nat → List Char → Option (Json × List Char)
  | 0, _ => none
  | f + 1, cs =>
    let cs1 := cs.dropWhile jsonWs
    match cs1 with
    | [] => none
    | c :: rest =>
      if c = dQuote then
        (parseJString f rest []).map (fun p => (Json.str p.1, p.2))
      else if c = lbraceC then
        match rest.dropWhile jsonWs with
        | c2 :: rest2 =>
          if c2 = rbraceC then some (Json.obj [], rest2)
          else parseJMembers f (rest.dropWhile jsonWs) []
        | [] => none
      else if c = '[' then
        match rest.dropWhile jsonWs with
        | ']' :: rest2 => some (Json.arr [], rest2)
        | _ => parseJElems f rest []
      else if c = 't' then
        (dropLit "rue".toList rest).map (fun r => (Json.bool true, r))
      else if c = 'f' then
        (dropLit "alse".toList rest).map (fun r => (Json.bool false, r))
      else if c = 'n' then
        (dropLit "ull".toList rest).map (fun r => (Json.null, r))
      else if c = '-' || c.isDigit then
        parseJNumber cs1
      else none

/-- Object members, starting at a key. -/
def parseJMembers : Nat → List Char → List (String × Json) →
    Option (Json × List Char)
  | 0, _, _ => none
  | f + 1, cs, acc =>
    match cs.dropWhile jsonWs with
    | c :: rest =>
      if c = dQuote then
        match parseJString f rest [] with
        | some (k, cs2) =>
          match cs2.dropWhile jsonWs with
          | ':' :: cs3 =>
            match parseJVal f cs3 with
            | some (v, cs4) =>
              match cs4.dropWhile jsonWs with
              | ',' :: cs5 => parseJMembers f cs5 ((k, v) :: acc)
              | c2 :: cs5 =>
                if c2 = rbraceC then some (Json.obj ((k, v) :: acc).reverse, cs5)
                else none
              | [] => none
            | none => none
          | _ => none
        | none => none
      else none
    | [] => none

/-- Array elements. -/
def parseJElems : Nat → List Char → List Json → Option (Json × List Char)
  | 0, _, _ => none
  | f + 1, cs, acc =>
    match parseJVal f cs with
    | some (v, cs2) =>
      match cs2.dropWhile jsonWs with
      | ',' :: cs3 => parseJElems f cs3 (v :: acc)
      | ']' :: cs3 => some (Json.arr (v :: acc).reverse, cs3)
      | _ => none
    | none => none

end

/-- `JSON.parse(s)`: a single value with only whitespace around it.
The fuel bounds the number of parser steps; at most two steps happen per
input character, so `2 * length + 2` never runs out on parseable input. -/
def jsonParse (s : String) : Option Json :=
  match parseJVal (2 * s.length + 2) s.toList with
  | some (j, rest) => if (rest.dropWhile jsonWs).isEmpty then some j else none
  | none => none

/-! ### npm (`parseNpmLock`, src/unnamed/part_000, lines 315–343) -/

/-- Name derivation from a `packages` key: last non-empty
`node_modules/`-split segment with one trailing `/` stripped. -/
def npmNameFromKey (key : String) : Option String :=
  let parts := (strSplitOn key "node_modules/").filter (fun s => !s.isEmpty)
  match parts.getLast? with
  | none => none
  | some last => some (if strEndsWith last "/" then last.dropRight 1 else last)

/-- `parseNpmLock(content)`: JSON-parse, iterate `packages`, skip the root
entry and entries without a version, take the explicit `name` field else
derive it from the key. -/
def parseNpmLock (content : String) : VersionsSet :=
  match jsonParse content with
  | none => []
  | some j =>
    let packages :=
      match jGet j "packages" with
      | some (Json.obj fields) => fields
      | _ => []
    packages.foldl (fun acc kv =>
      match jGetStr kv.2 "version" with
      | none => acc
      | some version =>
        if version.isEmpty then acc
        else if kv.1 = "" then acc
        else
          let name? :=
            match jGetStr kv.2 "name" with
            | some n => if n.isEmpty then npmNameFromKey kv.1 else some n
            | none => npmNameFromKey kv.1
          match name? with
          | none => acc
          | some name => if name.isEmpty then acc else addVersion acc name version) []

/-! ### bun

The bun parser lives in the repository's `lib/lockfile.ts`, which is not
among the provided sources (only its tests and callers are). -/

/-- Modelled from the spec: the missing `parseBunLock` comment stripper —
"strip `//`-style line comments before JSON-parsing"; a `//` outside a
string literal discards the rest of the line. -/
def stripLineCommentsGo : Nat → Bool → List Char → List Char
  | 0, _, _ => []
  | _ + 1, _, [] => []
  | f + 1, true, c :: rest =>
    if c = '\\' then
      match rest with
      | d :: rest2 => c :: d :: stripLineCommentsGo f true rest2
      | [] => [c]
    else if c = dQuote then c :: stripLineCommentsGo f false rest
    else c :: stripLineCommentsGo f true rest
  | f + 1, false, c :: rest =>
    if c = dQuote then c :: stripLineCommentsGo f true rest
    else if c = '/' then
      match rest with
      | '/' :: rest2 => stripLineCommentsGo f false (rest2.dropWhile (fun ch => ch ≠ '\n'))
      | _ => c :: stripLineCommentsGo f false rest
    else c :: stripLineCommentsGo f false rest

/-- Modelled from the spec: line-comment stripping for bun's JSONC. -/
def stripLineComments (s : String) : String :=
  String.mk (stripLineCommentsGo (s.length + 1) false s.toList)

/-- Modelled from the spec: the missing `parseBunLock` trailing-comma
tolerance — a comma followed (over whitespace) by `]` or the closing brace,
outside string literals, is dropped. -/
def stripTrailingCommasGo : Nat → Bool → List Char → List Char
  | 0, _, _ => []
  | _ + 1, _, [] => []
  | f + 1, true, c :: rest =>
    if c = '\\' then
      match rest with
      | d :: rest2 => c :: d :: stripTrailingCommasGo f true rest2
      | [] => [c]
    else if c = dQuote then c :: stripTrailingCommasGo f false rest
    else c :: stripTrailingCommasGo f true rest
  | f + 1, false, c :: rest =>
    if c = dQuote then c :: stripTrailingCommasGo f true rest
    else if c = ',' then
      match rest.dropWhile jsonWs with
      | d :: _ => if d = rbraceC || d = ']' then stripTrailingCommasGo f false rest
                  else c :: stripTrailingCommasGo f false rest
      | [] => c :: stripTrailingCommasGo f false rest
    else c :: stripTrailingCommasGo f false rest

/-- Modelled from the spec: trailing-comma removal for bun's JSONC. -/
def stripTrailingCommas (s : String) : String :=
  String.mk (stripTrailingCommasGo (s.length + 1) false s.toList)

/-- Modelled from the spec: the missing `parseBunLock` — strip `//` line
comments and trailing commas, JSON-parse, then read `packages` either as
an array of `{name, version}` objects (skipping null slots and entries
missing either field) or as an object keyed `"<name>@<version>"`, deriving
the fields from the key (split on the last `@`, scope retained) when the
value lacks them explicitly. -/
def parseBunLock (content : String) : VersionsSet :=
  match jsonParse (stripTrailingCommas (stripLineComments content)) with
  | none => []
  | some j =>
    match jGet j "packages" with
    | some (Json.arr entries) =>
      entries.foldl (fun acc e =>
        match jGetStr e "name", jGetStr e "version" with
        | some n, some v =>
          if n.isEmpty || v.isEmpty then acc else addVersion acc n v
        | _, _ => acc) []
    | some (Json.obj fields) =>
      fields.foldl (fun acc kv =>
        let fromKey : Option (String × String) :=
          match lastIdxOfChar kv.1 '@' with
          | some a => if a = 0 then none else some (kv.1.take a, kv.1.drop (a + 1))
          | none => none
        let n? : Option String :=
          match jGetStr kv.2 "name" with
          | some n => if n.isEmpty then fromKey.map Prod.fst else some n
          | none => fromKey.map Prod.fst
        let v? : Option String :=
          match jGetStr kv.2 "version" with
          | some v => if v.isEmpty then fromKey.map Prod.snd else some v
          | none => fromKey.map Prod.snd
        match n?, v? with
        | some n, some v =>
          if n.isEmpty || v.isEmpty then acc else addVersion acc n v
        | _, _ => acc) []
    | _ => []

/-! ### Dispatch -/

/-- `parseLockfile(lockfilePath, content)` (src/unnamed/part_000,
lines 305–313, plus the `bun.lock` arm of the current lockfile module,
modelled from the spec's FormatSniffer): dispatch on the file-name suffix,
with the yarn dialect chosen by the `yarn lockfile v1` content marker;
any other tag yields an empty mapping. -/
def parseLockfile (lockfilePath content : String) : VersionsSet :=
  if strEndsWith lockfilePath "package-lock.json" then parseNpmLock content
  else if strEndsWith lockfilePath "pnpm-lock.yaml" then parsePnpmLock content
  else if strEndsWith lockfilePath "yarn.lock" then
    if (strIdxOfSub content "yarn lockfile v1").isSome then parseYarnV1Lock content
    else parseYarnBerryLock content
  else if strEndsWith lockfilePath "bun.lock" then parseBunLock content
  else []

/-- `attInconclusive r`: the endpoint outcomes that make both resolvers
move on — a non-404 error, or a success whose attestation list is empty
(which only `hasProvenance` treats as conclusive when the count is 0). -/
def attInconclusive (r : AttResp) : Prop :=
  r = AttResp.err ∨ ∃ count, r = AttResp.ok count []

/-! ## Helper lemmas -/

theorem cacheGet_cacheSet_self {α : Type} (c : Cache α) (k : String) (v : α) :
    cacheGet (cacheSet c k v) k = some v := by
  induction c with
  | nil => simp [cacheGet, cacheSet]
  | cons p c ih =>
    by_cases hp : p.1 = k
    · simp [cacheGet, cacheSet, hp]
    · simp only [cacheSet, List.any_cons]
      by_cases hc : c.any (fun p => p.1 = k)
      · simpa [cacheGet, cacheSet, hp, hc] using ih
      · simpa [cacheGet, cacheSet, hp, hc] using ih

/-- Every call of `hasProvenance` leaves the cache mapping its key to its
result. -/
theorem hasProvenance_stores (name version : String) (reg : Registry)
    (cache : Cache Bool) :
    cacheGet (hasProvenance name version reg cache).2.1 (name ++ "@" ++ version) =
      some (hasProvenance name version reg cache).1 := by
  cases hm : cacheGet cache (name ++ "@" ++ version) with
  | some b => simp [hasProvenance, hm]
  | none =>
    rcases reg with ⟨a0, a1, m⟩
    cases a0 <;> cases a1 <;> cases m <;>
      simp only [hasProvenance, hm] <;>
      (repeat' split) <;>
      simp [cacheGet_cacheSet_self]

/-- Every call of `hasTrustedPublisher` leaves the cache mapping its key
to its result. -/
theorem hasTrustedPublisher_stores (name version : String) (reg : Registry)
    (cache : Cache Bool) :
    cacheGet (hasTrustedPublisher name version reg cache).2.1 (name ++ "@" ++ version) =
      some (hasTrustedPublisher name version reg cache).1 := by
  cases hm : cacheGet cache (name ++ "@" ++ version) with
  | some b => simp [hasTrustedPublisher, hm]
  | none =>
    rcases reg with ⟨a0, a1, m⟩
    cases m <;> simp [hasTrustedPublisher, hm, cacheGet_cacheSet_self]

/-- Every call of `getProvenanceDetails` leaves the cache mapping its key
to its result. -/
theorem getProvenanceDetails_stores (name version : String) (reg : Registry)
    (cache : Cache ProvenanceDetails) :
    cacheGet (getProvenanceDetails name version reg cache).2.1 (name ++ "@" ++ version) =
      some (getProvenanceDetails name version reg cache).1 := by
  cases hm : cacheGet cache (name ++ "@" ++ version) with
  | some d => simp [getProvenanceDetails, hm]
  | none =>
    rcases reg with ⟨a0, a1, m⟩
    cases a0 <;> cases a1 <;> cases m <;>
      simp only [getProvenanceDetails, hm] <;>
      (repeat' split) <;>
      simp [cacheGet_cacheSet_self]

/-! ## Claim theorems -/

/-- C2: for an uncached `(name, version)`, `hasProvenance` queries the two
attestation URL shapes in fixed order (its query log is always a prefix of
`[att0, att1, meta]`); a success with positive count at the first endpoint
yields `true` with no further query; a success with zero count yields
`false` immediately — cached, without the second endpoint or the metadata
fallback; a 404 yields `false` immediately (cached); and in the `false`
cases a second call on the resulting cache returns the same `false` with
no network query, whatever the registry would now answer. -/
theorem c2_hasProvenance_short_circuits
    (name version : String) (reg reg' : Registry) (cache : Cache Bool)
    (hmiss : cacheGet cache (name ++ "@" ++ version) = none) :
    ((hasProvenance name version reg cache).2.2 = [Query.att0] ∨
      (hasProvenance name version reg cache).2.2 = [Query.att0, Query.att1] ∨
      (hasProvenance name version reg cache).2.2 =
        [Query.att0, Query.att1, Query.meta]) ∧
    (∀ count atts, reg.att0 = AttResp.ok count atts → 0 < attCount count atts →
      hasProvenance name version reg cache =
        (true, cacheSet cache (name ++ "@" ++ version) true, [Query.att0])) ∧
    (∀ count atts, reg.att0 = AttResp.ok count atts → attCount count atts = 0 →
      hasProvenance name version reg cache =
        (false, cacheSet cache (name ++ "@" ++ version) false, [Query.att0])) ∧
    (reg.att0 = AttResp.notFound →
      hasProvenance name version reg cache =
        (false, cacheSet cache (name ++ "@" ++ version) false, [Query.att0])) ∧
    ((hasProvenance name version reg cache).1 = false →
      hasProvenance name version reg' (hasProvenance name version reg cache).2.1 =
        (false, (hasProvenance name version reg cache).2.1, [])) := by
  refine ⟨?_, ?_, ?_, ?_, ?_⟩
  · rcases reg with ⟨a0, a1, m⟩
    cases a0 <;> cases a1 <;> cases m <;>
      simp only [hasProvenance, hmiss] <;>
      (repeat' split) <;> simp
  · intro count atts h0 hpos
    simp [hasProvenance, hmiss, h0, Nat.pos_iff_ne_zero.mp hpos]
  · intro count atts h0 hz
    simp [hasProvenance, hmiss, h0, hz]
  · intro h0
    simp [hasProvenance, hmiss, h0]
  · intro hfalse
    have hstore := hasProvenance_stores name version reg cache
    rw [hfalse] at hstore
    generalize hres : (hasProvenance name version reg cache).2.1 = c' at hstore ⊢
    simp [hasProvenance, hstore]

/-- Witness for C2 at a concrete input: an empty cache, a 404-answering
registry, then a registry that would answer positively. -/
theorem c2_hasProvenance_short_circuits_witness :
    cacheGet ([] : Cache Bool) ("lodash" ++ "@" ++ "4.17.21") = none ∧
    (hasProvenance "lodash" "4.17.21" ⟨AttResp.notFound, AttResp.err, MetaResp.err⟩ [] =
        (false, cacheSet [] ("lodash" ++ "@" ++ "4.17.21") false, [Query.att0]) ∧
      hasProvenance "lodash" "4.17.21" ⟨AttResp.ok (some 7) [], AttResp.err, MetaResp.err⟩
          (hasProvenance "lodash" "4.17.21" ⟨AttResp.notFound, AttResp.err, MetaResp.err⟩ []).2.1 =
        (false,
          (hasProvenance "lodash" "4.17.21" ⟨AttResp.notFound, AttResp.err, MetaResp.err⟩ []).2.1,
          [])) := by
  have h := c2_hasProvenance_short_circuits "lodash" "4.17.21"
    ⟨AttResp.notFound, AttResp.err, MetaResp.err⟩
    ⟨AttResp.ok (some 7) [], AttResp.err, MetaResp.err⟩ [] (by rfl)
  exact ⟨by rfl, h.2.2.2.1 rfl, h.2.2.2.2 (by decide)⟩

/-- C6: when `name@version` is already cached, each of `hasProvenance`,
`hasTrustedPublisher` and `getProvenanceDetails` returns the cached value
with no network query and the cache untouched; and every call of each
resolver leaves the cache mapping that key to the returned result, so later
calls in the same run keep returning it. -/
theorem c6_cache_is_immutable_truth
    (name version : String) (reg : Registry)
    (cb ct : Cache Bool) (cd : Cache ProvenanceDetails)
    (b tb : Bool) (d : ProvenanceDetails)
    (hb : cacheGet cb (name ++ "@" ++ version) = some b)
    (ht : cacheGet ct (name ++ "@" ++ version) = some tb)
    (hd : cacheGet cd (name ++ "@" ++ version) = some d) :
    hasProvenance name version reg cb = (b, cb, []) ∧
    hasTrustedPublisher name version reg ct = (tb, ct, []) ∧
    getProvenanceDetails name version reg cd = (d, cd, []) ∧
    (∀ (reg' : Registry) (cb' : Cache Bool),
      cacheGet (hasProvenance name version reg' cb').2.1 (name ++ "@" ++ version) =
        some (hasProvenance name version reg' cb').1) ∧
    (∀ (reg' : Registry) (ct' : Cache Bool),
      cacheGet (hasTrustedPublisher name version reg' ct').2.1 (name ++ "@" ++ version) =
        some (hasTrustedPublisher name version reg' ct').1) ∧
    (∀ (reg' : Registry) (cd' : Cache ProvenanceDetails),
      cacheGet (getProvenanceDetails name version reg' cd').2.1 (name ++ "@" ++ version) =
        some (getProvenanceDetails name version reg' cd').1) := by
  refine ⟨?_, ?_, ?_, ?_, ?_, ?_⟩
  · simp [hasProvenance, hb]
  · simp [hasTrustedPublisher, ht]
  · simp [getProvenanceDetails, hd]
  · intro reg' cb'
    exact hasProvenance_stores name version reg' cb'
  · intro reg' ct'
    exact hasTrustedPublisher_stores name version reg' ct'
  · intro reg' cd'
    exact getProvenanceDetails_stores name version reg' cd'

/-- Witness for C6 at a concrete input: singleton caches holding `true`,
`false` and a details record; the registry would answer differently, yet
the cached values are returned untouched. -/
theorem c6_cache_is_immutable_truth_witness :
    cacheGet [("a@1.0.0", true)] ("a" ++ "@" ++ "1.0.0") = some true ∧
    cacheGet [("a@1.0.0", false)] ("a" ++ "@" ++ "1.0.0") = some false ∧
    cacheGet [("a@1.0.0", ({ has := true } : ProvenanceDetails))] ("a" ++ "@" ++ "1.0.0") =
      some { has := true } ∧
    hasProvenance "a" "1.0.0" ⟨AttResp.notFound, AttResp.notFound, MetaResp.err⟩
      [("a@1.0.0", true)] = (true, [("a@1.0.0", true)], []) ∧
    hasTrustedPublisher "a" "1.0.0" ⟨AttResp.notFound, AttResp.notFound, MetaResp.err⟩
      [("a@1.0.0", false)] = (false, [("a@1.0.0", false)], []) ∧
    getProvenanceDetails "a" "1.0.0" ⟨AttResp.notFound, AttResp.notFound, MetaResp.err⟩
      [("a@1.0.0", { has := true })] = ({ has := true }, [("a@1.0.0", { has := true })], []) := by
  have h := c6_cache_is_immutable_truth "a" "1.0.0"
    ⟨AttResp.notFound, AttResp.notFound, MetaResp.err⟩
    [("a@1.0.0", true)] [("a@1.0.0", false)] [("a@1.0.0", { has := true })]
    true false { has := true } (by rfl) (by rfl) (by rfl)
  exact ⟨by rfl, by rfl, by rfl, h.1, h.2.1, h.2.2.1⟩

/-- The attestation scan never changes the `has` flag it started with. -/
theorem scanAtts_has (d : ProvenanceDetails) (atts : List Attestation) :
    (scanAtts d atts).has = d.has := by
  induction atts generalizing d with
  | nil => rfl
  | cons att rest ih =>
    simp only [scanAtts]
    repeat' split
    all_goals simp [ih]

/-- C10: on an uncached pair whose first attestation endpoint answers
successfully with an empty attestation list and no positive count,
`hasProvenance` concludes `false` after that single query, while
`getProvenanceDetails` treats the same answer as inconclusive: it goes on
to the second endpoint and, when that is also inconclusive, to the
metadata fallback; and there is a response sequence (second endpoint
carrying an attestation) on which `hasProvenance` answers `false` but
`getProvenanceDetails` answers `has = true`. -/
theorem c10_empty_list_divergence
    (name version : String) (reg : Registry)
    (cb : Cache Bool) (cd : Cache ProvenanceDetails) (count : Option Nat)
    (hmb : cacheGet cb (name ++ "@" ++ version) = none)
    (hmd : cacheGet cd (name ++ "@" ++ version) = none)
    (h0 : reg.att0 = AttResp.ok count [])
    (hc : attCount count [] = 0) :
    hasProvenance name version reg cb =
      (false, cacheSet cb (name ++ "@" ++ version) false, [Query.att0]) ∧
    Query.att1 ∈ (getProvenanceDetails name version reg cd).2.2 ∧
    (attInconclusive reg.att1 →
      Query.meta ∈ (getProvenanceDetails name version reg cd).2.2) ∧
    ((hasProvenance name version
        ⟨AttResp.ok none [], AttResp.ok none [{}], MetaResp.err⟩ []).1 = false ∧
      (getProvenanceDetails name version
        ⟨AttResp.ok none [], AttResp.ok none [{}], MetaResp.err⟩ []).1.has = true) := by
  refine ⟨?_, ?_, ?_, ?_, ?_⟩
  · simp [hasProvenance, hmb, h0, hc]
  · cases h1 : reg.att1 with
    | ok c1 atts1 =>
      cases atts1 <;> cases hm : reg.meta <;>
        simp [getProvenanceDetails, hmd, h0, h1, hm]
    | notFound => simp [getProvenanceDetails, hmd, h0, h1]
    | err =>
      cases hm : reg.meta <;> simp [getProvenanceDetails, hmd, h0, h1, hm]
  · rintro (h1 | ⟨c1, h1⟩) <;>
      cases hm : reg.meta <;>
      simp [getProvenanceDetails, hmd, h0, h1, hm]
  · simp [hasProvenance, cacheGet, attCount]
  · simp [getProvenanceDetails, cacheGet, scanAtts_has]

/-- Witness for C10 at a concrete input: empty caches, first endpoint
`{count: 0, attestations: []}`, second endpoint erroring. -/
theorem c10_empty_list_divergence_witness :
    cacheGet ([] : Cache Bool) ("pkg" ++ "@" ++ "2.0.0") = none ∧
    attCount (some 0) [] = 0 ∧
    (hasProvenance "pkg" "2.0.0" ⟨AttResp.ok (some 0) [], AttResp.err, MetaResp.err⟩ [] =
        (false, cacheSet [] ("pkg" ++ "@" ++ "2.0.0") false, [Query.att0]) ∧
      Query.att1 ∈
        (getProvenanceDetails "pkg" "2.0.0"
          ⟨AttResp.ok (some 0) [], AttResp.err, MetaResp.err⟩ []).2.2 ∧
      Query.meta ∈
        (getProvenanceDetails "pkg" "2.0.0"
          ⟨AttResp.ok (some 0) [], AttResp.err, MetaResp.err⟩ []).2.2 ∧
      (hasProvenance "pkg" "2.0.0"
          ⟨AttResp.ok none [], AttResp.ok none [{}], MetaResp.err⟩ []).1 = false ∧
      (getProvenanceDetails "pkg" "2.0.0"
          ⟨AttResp.ok none [], AttResp.ok none [{}], MetaResp.err⟩ []).1.has = true) := by
  have h := c10_empty_list_divergence "pkg" "2.0.0"
    ⟨AttResp.ok (some 0) [], AttResp.err, MetaResp.err⟩ [] [] (some 0)
    (by rfl) (by rfl) rfl (by decide)
  exact ⟨by rfl, by decide, h.1, h.2.1, h.2.2.1 (Or.inl rfl), h.2.2.2.1, h.2.2.2.2⟩

/-- C3: on an uncached pair, a 404 from an attestation endpoint makes
`getProvenanceDetails` cache and return the details accumulated so far —
`{has := false}`, since a successful endpoint would have ended the loop —
without a metadata query; when both endpoints are inconclusive (non-404
error or empty attestation list) the metadata endpoint is still queried,
and a version record carrying a non-empty `dist.attestations` value sets
`has := true`; a metadata failure leaves `{has := false}`, cached.  The
function is total, so no error is ever propagated. -/
theorem c3_details_fallback_chain
    (name version : String) (reg : Registry) (cd : Cache ProvenanceDetails)
    (hmd : cacheGet cd (name ++ "@" ++ version) = none) :
    (reg.att0 = AttResp.notFound →
      getProvenanceDetails name version reg cd =
        ({}, cacheSet cd (name ++ "@" ++ version) {}, [Query.att0])) ∧
    (attInconclusive reg.att0 → reg.att1 = AttResp.notFound →
      getProvenanceDetails name version reg cd =
        ({}, cacheSet cd (name ++ "@" ++ version) {}, [Query.att0, Query.att1])) ∧
    (attInconclusive reg.att0 → attInconclusive reg.att1 →
      (getProvenanceDetails name version reg cd).2.2 =
        [Query.att0, Query.att1, Query.meta]) ∧
    (attInconclusive reg.att0 → attInconclusive reg.att1 →
      ∀ v dist atts, reg.meta = MetaResp.ok (some v) → v.dist = some dist →
        dist.attestations = some atts → atts ≠ [] →
        (getProvenanceDetails name version reg cd).1.has = true) ∧
    (attInconclusive reg.att0 → attInconclusive reg.att1 → reg.meta = MetaResp.err →
      getProvenanceDetails name version reg cd =
        ({}, cacheSet cd (name ++ "@" ++ version) {},
          [Query.att0, Query.att1, Query.meta])) := by
  refine ⟨?_, ?_, ?_, ?_, ?_⟩
  · intro h0
    simp [getProvenanceDetails, hmd, h0]
  · rintro (h0 | ⟨c0, h0⟩) h1 <;> simp [getProvenanceDetails, hmd, h0, h1]
  · rintro (h0 | ⟨c0, h0⟩) (h1 | ⟨c1, h1⟩) <;>
      cases hm : reg.meta <;>
      simp [getProvenanceDetails, hmd, h0, h1, hm]
  · rintro (h0 | ⟨c0, h0⟩) (h1 | ⟨c1, h1⟩) v dist atts hm hdist hatts hne <;>
      simp [getProvenanceDetails, hmd, h0, h1, hm, hdist, hatts, hne, scanAtts_has]
  · rintro (h0 | ⟨c0, h0⟩) (h1 | ⟨c1, h1⟩) hm <;>
      simp [getProvenanceDetails, hmd, h0, h1, hm]

/-- Witness for C3 at a concrete input: a 404 first endpoint on one
registry, and two inconclusive endpoints with a `dist.attestations`
metadata record on another. -/
theorem c3_details_fallback_chain_witness :
    cacheGet ([] : Cache ProvenanceDetails) ("pkg" ++ "@" ++ "3.0.0") = none ∧
    (getProvenanceDetails "pkg" "3.0.0" ⟨AttResp.notFound, AttResp.err, MetaResp.err⟩ [] =
        ({}, cacheSet [] ("pkg" ++ "@" ++ "3.0.0") {}, [Query.att0]) ∧
      (getProvenanceDetails "pkg" "3.0.0"
        ⟨AttResp.err, AttResp.ok none [],
          MetaResp.ok (some { dist := some { attestations := some [{}] } })⟩ []).2.2 =
        [Query.att0, Query.att1, Query.meta] ∧
      (getProvenanceDetails "pkg" "3.0.0"
        ⟨AttResp.err, AttResp.ok none [],
          MetaResp.ok (some { dist := some { attestations := some [{}] } })⟩ []).1.has =
        true ∧
      getProvenanceDetails "pkg" "3.0.0" ⟨AttResp.err, AttResp.err, MetaResp.err⟩ [] =
        ({}, cacheSet [] ("pkg" ++ "@" ++ "3.0.0") {},
          [Query.att0, Query.att1, Query.meta])) := by
  have h0 := c3_details_fallback_chain "pkg" "3.0.0"
    ⟨AttResp.notFound, AttResp.err, MetaResp.err⟩ [] (by rfl)
  have h1 := c3_details_fallback_chain "pkg" "3.0.0"
    ⟨AttResp.err, AttResp.ok none [],
      MetaResp.ok (some { dist := some { attestations := some [{}] } })⟩ [] (by rfl)
  have h2 := c3_details_fallback_chain "pkg" "3.0.0"
    ⟨AttResp.err, AttResp.err, MetaResp.err⟩ [] (by rfl)
  refine ⟨by rfl, h0.1 rfl, ?_, ?_, h2.2.2.2.2 (Or.inl rfl) (Or.inl rfl) rfl⟩
  · exact h1.2.2.1 (Or.inl rfl) (Or.inr ⟨none, rfl⟩)
  · exact h1.2.2.2.1 (Or.inl rfl) (Or.inr ⟨none, rfl⟩)
      { dist := some { attestations := some [{}] } } { attestations := some [{}] } [{}]
      rfl rfl rfl (by simp)

/-- A repository produced by `repoFromPath` is never empty. -/
theorem repoFromPath_ne_empty (path r : String) (h : repoFromPath path = some r) :
    r ≠ "" := by
  unfold repoFromPath at h
  split at h
  · intro hr
    cases h
    have hlen := congrArg String.length hr
    simp [String.length_append] at hlen
    exact absurd hlen.1.2 (by decide)
  · cases h

/-- A repository produced by `parseRepoRefFromUri` is never empty. -/
theorem parseRepoRefFromUri_repo_ne_empty (uri : String) (pr : RepoRef)
    (h : parseRepoRefFromUri uri = some pr) : pr.repository ≠ "" := by
  unfold parseRepoRefFromUri at h
  dsimp only at h
  split at h
  · cases h
  · split at h
    · split at h
      · cases h
        exact repoFromPath_ne_empty _ _ (by assumption)
      · cases h
    · cases h

set_option maxRecDepth 4000 in
/-- C7: `extractRepoAndRef` resolves in priority order — workflow fields
(the `github.workflow` variant only when no `workflow` object exists)
win; `invocation.configSource.uri` fills only components still missing;
`resolvedDependencies` URIs are consulted only when the repository is
still missing, taking the first entry that parses; and normalization maps
bare `owner/repo` tokens and `github.com`/`www.github.com`/
`*.github.com` URLs to `owner/repo` (trailing `.git` stripped), while
URI parsing yields nothing for non-GitHub hosts or unparseable URIs. -/
theorem c7_extractRepoAndRef_priority (att : Attestation) :
    (att.hasWorkflowObj = true →
      strTruthy (att.workflowRepository.map normalizeRepository) = true →
      strTruthy att.workflowRef = true →
      extractRepoAndRef att =
        { repository := att.workflowRepository.map normalizeRepository
          ref := att.workflowRef }) ∧
    (att.hasWorkflowObj = true →
      strTruthy (att.workflowRepository.map normalizeRepository) = true →
      (extractRepoAndRef att).repository =
        att.workflowRepository.map normalizeRepository) ∧
    (att.hasWorkflowObj = false → att.hasGithubWorkflowObj = true →
      strTruthy (att.githubWorkflowRepository.map normalizeRepository) = true →
      strTruthy att.githubWorkflowRef = true →
      extractRepoAndRef att =
        { repository := att.githubWorkflowRepository.map normalizeRepository
          ref := att.githubWorkflowRef }) ∧
    (att.hasWorkflowObj = false → att.hasGithubWorkflowObj = false →
      ∀ u pr, att.configSourceUri = some u → u ≠ "" →
        parseRepoRefFromUri u = some pr →
        extractRepoAndRef att = { repository := some pr.repository, ref := pr.ref }) ∧
    (att.hasWorkflowObj = true →
      strTruthy (att.workflowRepository.map normalizeRepository) = true →
      att.workflowRef = none →
      ∀ u pr, att.configSourceUri = some u → u ≠ "" →
        parseRepoRefFromUri u = some pr →
        extractRepoAndRef att =
          { repository := att.workflowRepository.map normalizeRepository
            ref := pr.ref }) ∧
    (strTruthy (extractBeforeDeps att).repository = true →
      extractRepoAndRef att = extractBeforeDeps att) ∧
    (att.hasWorkflowObj = false → att.hasGithubWorkflowObj = false →
      att.configSourceUri = none →
      extractRepoAndRef att =
        { repository := att.resolvedDependencyUris.findSome? depUriRepo
          ref := none }) ∧
    (normalizeRepository "owner/repo" = "owner/repo" ∧
      normalizeRepository "owner/repo.git" = "owner/repo" ∧
      normalizeRepository "https://github.com/owner/repo" = "owner/repo" ∧
      normalizeRepository "git+https://github.com/owner/repo.git" = "owner/repo" ∧
      normalizeRepository "https://www.github.com/owner/repo" = "owner/repo" ∧
      normalizeRepository "https://enterprise.github.com/owner/repo.git" = "owner/repo" ∧
      normalizeRepository "https://gitlab.com/owner/repo" =
        "https://gitlab.com/owner/repo" ∧
      normalizeRepository "not a url" = "not a url" ∧
      parseRepoRefFromUri "git+https://github.com/owner/repo@refs/heads/main" =
        some ⟨"owner/repo", some "refs/heads/main"⟩ ∧
      parseRepoRefFromUri "https://gitlab.com/owner/repo@refs/heads/main" = none ∧
      parseRepoRefFromUri "::::" = none ∧
      parseRepoRefFromUri "https://enterprise.github.com/owner/repo" = none) := by
  refine ⟨?_, ?_, ?_, ?_, ?_, ?_, ?_, ?_⟩
  · intro hw hr hf
    simp [extractRepoAndRef, extractBeforeDeps, hw, hr, hf]
  · intro hw hr
    by_cases hf : strTruthy att.workflowRef = true
    · simp [extractRepoAndRef, extractBeforeDeps, hw, hr, hf]
    · have hf' : strTruthy att.workflowRef = false := by
        revert hf; cases strTruthy att.workflowRef <;> simp
      cases hparsed : (if strTruthy att.configSourceUri = true then
          parseRepoRefFromUri (att.configSourceUri.getD "") else none) with
      | none => simp [extractRepoAndRef, extractBeforeDeps, hw, hr, hf', hparsed]
      | some pr =>
        simp [extractRepoAndRef, extractBeforeDeps, hw, hr, hf', hparsed, jsOrStr]
  · intro hw hg hr hf
    simp [extractRepoAndRef, extractBeforeDeps, hw, hg, hr, hf]
  · intro hw hg u pr hu hne hparse
    have hrepo : pr.repository ≠ "" := parseRepoRefFromUri_repo_ne_empty u pr hparse
    have hue : u.isEmpty = false := by
      cases hcase : u.isEmpty
      · rfl
      · exact absurd ((String.isEmpty_iff u).mp hcase) hne
    have hre : pr.repository.isEmpty = false := by
      cases hcase : pr.repository.isEmpty
      · rfl
      · exact absurd ((String.isEmpty_iff pr.repository).mp hcase) hrepo
    simp [extractRepoAndRef, extractBeforeDeps, hw, hg, hu, hue, hparse, strTruthy,
      jsOrStr, hre]
  · intro hw hr hrefnone u pr hu hne hparse
    have hue : u.isEmpty = false := by
      cases hcase : u.isEmpty
      · rfl
      · exact absurd ((String.isEmpty_iff u).mp hcase) hne
    simp [extractRepoAndRef, extractBeforeDeps, hw, hr, hrefnone, hu, hue, hparse,
      jsOrStr, strTruthy]
    simp only [strTruthy] at hr
    simp [hr]
  · intro htruthy
    simp [extractRepoAndRef, htruthy]
  · intro hw hg hu
    simp [extractRepoAndRef, extractBeforeDeps, hw, hg, hu, strTruthy, jsOrStr]
    cases (att.resolvedDependencyUris.findSome? depUriRepo) <;> simp
  · refine ⟨by decide, by decide, by decide, by decide, by decide, by decide,
      by decide, by decide, by decide, by decide, by decide, by decide⟩

set_option maxRecDepth 8000 in
/-- Witness for C7 at concrete attestations: workflow fields, a
`configSource.uri`, and a `resolvedDependencies` list. -/
theorem c7_extractRepoAndRef_priority_witness :
    extractRepoAndRef
        { workflowRepository := some "owner/repo", workflowRef := some "refs/heads/dev"
          hasWorkflowObj := true
          configSourceUri := some "git+https://github.com/me/proj@refs/heads/feat"
          resolvedDependencyUris := [some "https://github.com/acme/pkg.git"] } =
      { repository := some "owner/repo", ref := some "refs/heads/dev" } ∧
    extractRepoAndRef
        { configSourceUri := some "git+https://github.com/me/proj@refs/heads/feat" } =
      { repository := some "me/proj", ref := some "refs/heads/feat" } ∧
    extractRepoAndRef
        { resolvedDependencyUris :=
            [none, some "https://gitlab.com/a/b", some "https://github.com/org/pkg.git"] } =
      { repository := some "org/pkg", ref := none } := by
  refine ⟨?_, ?_, ?_⟩
  · exact ((c7_extractRepoAndRef_priority
      { workflowRepository := some "owner/repo", workflowRef := some "refs/heads/dev"
        hasWorkflowObj := true
        configSourceUri := some "git+https://github.com/me/proj@refs/heads/feat"
        resolvedDependencyUris := [some "https://github.com/acme/pkg.git"] }).1
      rfl (by decide) (by decide)).trans (by decide)
  · exact (c7_extractRepoAndRef_priority
      { configSourceUri := some "git+https://github.com/me/proj@refs/heads/feat" }).2.2.2.1
      rfl rfl "git+https://github.com/me/proj@refs/heads/feat"
      ⟨"me/proj", some "refs/heads/feat"⟩ rfl (by decide) (by decide)
  · exact ((c7_extractRepoAndRef_priority
      { resolvedDependencyUris :=
          [none, some "https://gitlab.com/a/b",
            some "https://github.com/org/pkg.git"] }).2.2.2.2.2.2.1
      rfl rfl rfl).trans (by decide)

set_option maxRecDepth 20000 in
/-- C4: for each of the five lockfile dialects, a well-formed lockfile
carrying `lodash@4.17.21` and `@scope/name@2.3.4` parses to exactly the
mapping `lodash ↦ {4.17.21}, @scope/name ↦ {2.3.4}`, scoped names kept in
`@scope/name` form; dispatched through `parseLockfile` via each dialect's
file-name tag (yarn v1 and berry distinguished by the content marker). -/
theorem c4_five_dialects_fixture :
    parseLockfile "package-lock.json"
        "\x7b\"packages\": \x7b\"\": \x7b\"name\": \"root\", \"version\": \"1.0.0\"\x7d, \"node_modules/lodash\": \x7b\"version\": \"4.17.21\"\x7d, \"node_modules/@scope/name\": \x7b\"version\": \"2.3.4\"\x7d\x7d\x7d" =
      [("lodash", ["4.17.21"]), ("@scope/name", ["2.3.4"])] ∧
    parseLockfile "pnpm-lock.yaml"
        "packages:\n\n  /lodash@4.17.21:\n    resolution: x\n  /@scope/name@2.3.4:\n    resolution: x\n" =
      [("lodash", ["4.17.21"]), ("@scope/name", ["2.3.4"])] ∧
    parseLockfile "yarn.lock"
        "# yarn lockfile v1\n\nlodash@^4.17.21:\n  version \"4.17.21\"\n\n\"@scope/name@^2.3.4\":\n  version \"2.3.4\"\n" =
      [("lodash", ["4.17.21"]), ("@scope/name", ["2.3.4"])] ∧
    parseLockfile "yarn.lock"
        "\"lodash@npm:^4.17.21\":\n  version: 4.17.21\n\n\"@scope/name@npm:^2.3.4\":\n  version: \"2.3.4\"\n" =
      [("lodash", ["4.17.21"]), ("@scope/name", ["2.3.4"])] ∧
    parseLockfile "bun.lock"
        "\x7b\"packages\": [\x7b\"name\": \"lodash\", \"version\": \"4.17.21\"\x7d, \x7b\"name\": \"@scope/name\", \"version\": \"2.3.4\"\x7d]\x7d" =
      [("lodash", ["4.17.21"]), ("@scope/name", ["2.3.4"])] := by
  exact ⟨by decide, by decide, by decide, by decide, by decide⟩

set_option maxRecDepth 20000 in
/-- C9: in the pnpm parser a quoted two-space-indented key keeps its
leading `/` (only the quotes are stripped), while the unquoted form has
the `/` stripped — the slash removal happens before quote stripping and
only fires on unquoted keys. -/
theorem c9_pnpm_quoted_key_keeps_slash :
    parsePnpmLock "packages:\n\n  \"/name@1.0.0\":\n" = [("/name", ["1.0.0"])] ∧
    parsePnpmLock "packages:\n\n  /name@1.0.0:\n" = [("name", ["1.0.0"])] := by
  exact ⟨by decide, by decide⟩

/-- C8: lockfile parsing is total by construction and never throws; an
unknown format tag yields an empty mapping, unparseable JSON yields an
empty mapping for the npm and bun dialects, and unrecognized structure
yields an empty mapping for the line-based dialects. -/
theorem c8_parsing_best_effort
    (path content : String)
    (h1 : strEndsWith path "package-lock.json" = false)
    (h2 : strEndsWith path "pnpm-lock.yaml" = false)
    (h3 : strEndsWith path "yarn.lock" = false)
    (h4 : strEndsWith path "bun.lock" = false) :
    parseLockfile path content = [] ∧
    (∀ c, jsonParse c = none → parseNpmLock c = []) ∧
    (∀ c, jsonParse (stripTrailingCommas (stripLineComments c)) = none →
      parseBunLock c = []) ∧
    (parsePnpmLock "settings:\n  autoInstallPeers: true" = [] ∧
      parseYarnV1Lock "just some text\nwithout structure" = [] ∧
      parseYarnBerryLock "not-a-quoted-header:\n  version: \"1.0.0\"" = [] ∧
      parseNpmLock "invalid json \x7b" = [] ∧
      parseBunLock "invalid json \x7b" = []) := by
  refine ⟨?_, ?_, ?_, by decide, by decide, by decide, by decide, by decide⟩
  · simp [parseLockfile, h1, h2, h3, h4]
  · intro c hc
    simp [parseNpmLock, hc]
  · intro c hc
    simp [parseBunLock, hc]

/-- Witness for C8 at a concrete input: an unsupported tag and malformed
JSON bodies. -/
theorem c8_parsing_best_effort_witness :
    strEndsWith "requirements.txt" "package-lock.json" = false ∧
    (parseLockfile "requirements.txt" "lodash==4.17.21" = [] ∧
      jsonParse "invalid json \x7b" = none ∧
      parseNpmLock "invalid json \x7b" = []) := by
  have h := c8_parsing_best_effort "requirements.txt" "lodash==4.17.21"
    (by decide) (by decide) (by decide) (by decide)
  exact ⟨by decide, h.1, by rfl, h.2.1 "invalid json \x7b" (by rfl)⟩

/-- Membership in the key-set fold: first-occurrence insertion collects
exactly the names of the accumulator and the list. -/
theorem mem_foldl_insertName (l : List String) (acc : List String) (n : String) :
    n ∈ l.foldl insertName acc ↔ n ∈ acc ∨ n ∈ l := by
  induction l generalizing acc with
  | nil => simp
  | cons m l ih =>
    simp only [List.foldl_cons, ih, insertName]
    split
    · rename_i hm
      simp at hm
      constructor
      · rintro (h | h)
        · exact Or.inl h
        · exact Or.inr (List.mem_cons_of_mem m h)
      · rintro (h | h)
        · exact Or.inl h
        · rcases List.mem_cons.mp h with h | h
          · exact Or.inl (h ▸ hm)
          · exact Or.inr h
    · simp only [List.mem_append, List.mem_singleton, List.mem_cons]
      tauto

/-- The key-set fold keeps the accumulator duplicate-free. -/
theorem nodup_foldl_insertName (l : List String) (acc : List String)
    (h : acc.Nodup) : (l.foldl insertName acc).Nodup := by
  induction l generalizing acc with
  | nil => exact h
  | cons m l ih =>
    refine ih _ ?_
    unfold insertName
    split
    · exact h
    · rename_i hm
      simp at hm
      simp [List.nodup_append, h, hm]

/-- Filtering a name out of a `filterMap` over duplicate-free names whose
entries carry their own name. -/
theorem filterMap_filter_nameEq
    (P : String → Option PackageChange)
    (hP : ∀ m c, P m = some c → c.name = m) (n : String) :
    ∀ names : List String, names.Nodup →
      (names.filterMap P).filter (fun c => c.name == n) =
        if n ∈ names then (P n).toList else [] := by
  intro names
  induction names with
  | nil => simp
  | cons m names ih =>
    intro hnd
    have hndt : names.Nodup := hnd.of_cons
    cases hm : P m with
    | none =>
      rw [List.filterMap_cons_none hm, ih hndt]
      by_cases hnm : n = m
      · subst hnm
        have hnn : n ∉ names := (List.nodup_cons.mp hnd).1
        simp [hnn, hm]
      · simp [List.mem_cons, hnm]
    | some c =>
      have hcname : c.name = m := hP m c hm
      rw [List.filterMap_cons_some hm]
      by_cases hnm : n = m
      · subst hnm
        have hnn : n ∉ names := (List.nodup_cons.mp hnd).1
        rw [List.filter_cons]
        simp only [hcname, beq_self_eq_true, if_true]
        rw [ih hndt]
        simp [hnn, hm]
      · rw [List.filter_cons]
        have : (c.name == n) = false := by
          simp [hcname]
          exact fun h => hnm h.symm
        simp only [this, if_false, Bool.false_eq_true]
        rw [ih hndt]
        simp [List.mem_cons, hnm]

/-- C5: `diffDependencySets` yields, for every name in the union of the
key sets whose version sets are not set-equal, exactly one
`PackageChange` holding that name's previous and current sets (the empty
set for a missing key), and nothing for any other name; in particular a
package only present previously yields a change with `current` empty.
The embedding is a pure function, so the inputs are untouched. -/
theorem c5_diffDependencySets_exact (prev curr : VersionsSet) :
    (∀ n,
      (diffDependencySets prev curr).filter (fun c => c.name == n) =
        if (n ∈ prev.map Prod.fst ∨ n ∈ curr.map Prod.fst) ∧
            setsEqual (lookupVersions prev n) (lookupVersions curr n) = false
        then [⟨n, lookupVersions prev n, lookupVersions curr n⟩]
        else []) ∧
    (∀ n, n ∈ prev.map Prod.fst → lookupVersions curr n = [] →
      lookupVersions prev n ≠ [] →
      (⟨n, lookupVersions prev n, []⟩ : PackageChange) ∈ diffDependencySets prev curr) := by
  have hmain : ∀ n,
      (diffDependencySets prev curr).filter (fun c => c.name == n) =
        if (n ∈ prev.map Prod.fst ∨ n ∈ curr.map Prod.fst) ∧
            setsEqual (lookupVersions prev n) (lookupVersions curr n) = false
        then [⟨n, lookupVersions prev n, lookupVersions curr n⟩]
        else [] := by
    intro n
    unfold diffDependencySets
    rw [filterMap_filter_nameEq _ ?hP n (unionKeys prev curr)
      (nodup_foldl_insertName _ _ List.nodup_nil)]
    case hP =>
      intro m c hc
      dsimp only at hc
      split at hc
      · cases hc
      · cases hc; rfl
    have hmem : n ∈ unionKeys prev curr ↔
        n ∈ prev.map Prod.fst ∨ n ∈ curr.map Prod.fst := by
      unfold unionKeys
      rw [mem_foldl_insertName]
      simp
    by_cases hu : n ∈ unionKeys prev curr
    · rw [if_pos hu]
      by_cases he : setsEqual (lookupVersions prev n) (lookupVersions curr n) = false
      · have hcond : (n ∈ prev.map Prod.fst ∨ n ∈ curr.map Prod.fst) ∧
            setsEqual (lookupVersions prev n) (lookupVersions curr n) = false :=
          ⟨hmem.mp hu, he⟩
        rw [if_pos hcond]
        simp [he]
      · have he' : setsEqual (lookupVersions prev n) (lookupVersions curr n) = true := by
          revert he; cases setsEqual (lookupVersions prev n) (lookupVersions curr n) <;> simp
        have hncond : ¬((n ∈ prev.map Prod.fst ∨ n ∈ curr.map Prod.fst) ∧
            setsEqual (lookupVersions prev n) (lookupVersions curr n) = false) :=
          fun hc => he hc.2
        rw [if_neg hncond]
        simp [he']
    · have hncond : ¬((n ∈ prev.map Prod.fst ∨ n ∈ curr.map Prod.fst) ∧
          setsEqual (lookupVersions prev n) (lookupVersions curr n) = false) :=
        fun hc => (hmem.not.mp hu) hc.1
      rw [if_neg hu, if_neg hncond]
  refine ⟨hmain, ?_⟩
  intro n hprev hcurr hne
  have hse : setsEqual (lookupVersions prev n) (lookupVersions curr n) = false := by
    rw [hcurr]
    unfold setsEqual
    cases hl : lookupVersions prev n with
    | nil => exact absurd hl hne
    | cons a l => simp
  have h := hmain n
  rw [if_pos ⟨Or.inl hprev, hse⟩] at h
  have : (⟨n, lookupVersions prev n, lookupVersions curr n⟩ : PackageChange) ∈
      (diffDependencySets prev curr).filter (fun c => c.name == n) := by
    rw [h]; exact List.mem_singleton_self _
  rw [hcurr] at this
  exact List.mem_of_mem_filter this

/-- Witness for C5 at concrete mappings: a widened version set and a
removed package. -/
theorem c5_diffDependencySets_exact_witness :
    (diffDependencySets [("lodash", ["4.17.21"])]
        [("lodash", ["4.17.21", "4.17.22"])]).filter (fun c => c.name == "lodash") =
      [⟨"lodash", ["4.17.21"], ["4.17.21", "4.17.22"]⟩] ∧
    ("removed" ∈ ([("lodash", ["4.17.21"]), ("removed", ["1.0.0"])] :
        VersionsSet).map Prod.fst ∧
      (⟨"removed", ["1.0.0"], []⟩ : PackageChange) ∈
        diffDependencySets [("lodash", ["4.17.21"]), ("removed", ["1.0.0"])]
          [("lodash", ["4.17.21"])]) := by
  refine ⟨?_, by decide, ?_⟩
  · exact ((c5_diffDependencySets_exact [("lodash", ["4.17.21"])]
      [("lodash", ["4.17.21", "4.17.22"])]).1 "lodash").trans (by decide)
  · have h := (c5_diffDependencySets_exact
      [("lodash", ["4.17.21"]), ("removed", ["1.0.0"])]
      [("lodash", ["4.17.21"])]).2 "removed" (by decide) (by decide) (by decide)
    simpa using h

/-- Every event emitted for a new version carries that version in `to`. -/
theorem newVersionEvents_toVersion (name : String) (previous : List String)
    (hasProv hasTP : String → Bool) (v : String) (e : DowngradeEvent)
    (he : e ∈ newVersionEvents name previous hasProv hasTP v) : e.toVersion = v := by
  simp only [newVersionEvents, List.mem_append] at he
  rcases he with h | h <;>
    · (repeat' split at h) <;> simp_all

/-- Filtering one version's events out of the per-new-version `flatMap`
over duplicate-free versions. -/
theorem flatMap_filter_toVersion
    (f : String → List DowngradeEvent)
    (hf : ∀ u e, e ∈ f u → e.toVersion = u)
    (p : DowngradeEvent → Bool) (v : String) :
    ∀ vs : List String, vs.Nodup →
      (vs.flatMap f).filter (fun e => p e && (e.toVersion == v)) =
        if v ∈ vs then (f v).filter (fun e => p e && (e.toVersion == v)) else [] := by
  intro vs
  induction vs with
  | nil => simp
  | cons u vs ih =>
    intro hnd
    rw [List.flatMap_cons, List.filter_append, ih hnd.of_cons]
    by_cases huv : v = u
    · subst huv
      have hvn : v ∉ vs := (List.nodup_cons.mp hnd).1
      simp [hvn]
    · have h1 : (f u).filter (fun e => p e && (e.toVersion == v)) = [] := by
        rw [List.filter_eq_nil_iff]
        intro e hemem
        have hto := hf u e hemem
        simp [hto]
        intro _
        exact fun heq => huv heq.symm
      rw [h1]
      simp [List.mem_cons, huv]

/-- C1: for a `PackageChange` with non-empty sides and a genuinely new
version `v` of `current`, the events of the run's loop contain exactly one
`provenance`-typed event targeting `v` when `v` lacks provenance and some
previous version has it — its `from` being the first such previous version
in set iteration order — no such event when `v` has provenance or when no
previous version has it, and never more than one event of any downgrade
type per new version. -/
theorem c1_provenance_downgrade_events
    (c : PackageChange) (hasProv hasTP : String → Bool) (v : String)
    (hprev : c.previous ≠ []) (hnd : c.current.Nodup)
    (hvmem : v ∈ c.current) (hvnew : v ∉ c.previous) :
    (∀ p₀, hasProv v = false → c.previous.find? hasProv = some p₀ →
      (processChange c hasProv hasTP).filter
          (fun e => (e.downgradeType == DowngradeType.provenance) && (e.toVersion == v)) =
        [⟨c.name, p₀, v, DowngradeType.provenance, none⟩]) ∧
    (hasProv v = true →
      (processChange c hasProv hasTP).filter
          (fun e => (e.downgradeType == DowngradeType.provenance) && (e.toVersion == v)) =
        []) ∧
    (c.previous.find? hasProv = none →
      (processChange c hasProv hasTP).filter
          (fun e => (e.downgradeType == DowngradeType.provenance) && (e.toVersion == v)) =
        []) ∧
    (∀ dt, ((processChange c hasProv hasTP).filter
        (fun e => (e.downgradeType == dt) && (e.toVersion == v))).length ≤ 1) := by
  have hcur : c.current ≠ [] := by
    intro h
    rw [h] at hvmem
    cases hvmem
  have hpe : c.previous.isEmpty = false := by
    cases hp : c.previous
    · exact absurd hp hprev
    · rfl
  have hce : c.current.isEmpty = false := by
    cases hc2 : c.current
    · exact absurd hc2 hcur
    · rfl
  have hproc : processChange c hasProv hasTP =
      (c.current.filter (fun u => !c.previous.contains u)).flatMap
        (newVersionEvents c.name c.previous hasProv hasTP) := by
    simp [processChange, hpe, hce]
  have hndf : (c.current.filter (fun u => !c.previous.contains u)).Nodup :=
    hnd.filter _
  have hvf : v ∈ c.current.filter (fun u => !c.previous.contains u) := by
    rw [List.mem_filter]
    refine ⟨hvmem, ?_⟩
    simp [hvnew]
  have hred : ∀ p : DowngradeEvent → Bool,
      (processChange c hasProv hasTP).filter (fun e => p e && (e.toVersion == v)) =
        (newVersionEvents c.name c.previous hasProv hasTP v).filter
          (fun e => p e && (e.toVersion == v)) := by
    intro p
    rw [hproc, flatMap_filter_toVersion _
      (fun u e he => newVersionEvents_toVersion c.name c.previous hasProv hasTP u e he)
      p v _ hndf, if_pos hvf]
  refine ⟨?_, ?_, ?_, ?_⟩
  · intro p₀ hpv hfind
    rw [hred (fun e => e.downgradeType == DowngradeType.provenance)]
    cases htp : hasTP v <;>
      cases hft : c.previous.find? hasTP <;>
        simp [newVersionEvents, hpv, hfind, htp, hft]
  · intro hpv
    rw [hred (fun e => e.downgradeType == DowngradeType.provenance)]
    cases htp : hasTP v <;>
      cases hft : c.previous.find? hasTP <;>
        simp [newVersionEvents, hpv, htp, hft]
  · intro hfind
    rw [hred (fun e => e.downgradeType == DowngradeType.provenance)]
    cases hpv : hasProv v <;>
      cases htp : hasTP v <;>
        cases hft : c.previous.find? hasTP <;>
          simp [newVersionEvents, hpv, hfind, htp, hft]
  · intro dt
    rw [hred (fun e => e.downgradeType == dt)]
    cases dt <;>
      cases hpv : hasProv v <;>
        cases htp : hasTP v <;>
          cases hft : c.previous.find? hasTP <;>
            cases hfp : c.previous.find? hasProv <;>
              simp [newVersionEvents, hpv, htp, hft, hfp]

/-- Witness for C1 at a concrete input: `1.0.0 → 2.0.0` where only the
old version has provenance. -/
theorem c1_provenance_downgrade_events_witness :
    (["1.0.0"] : List String) ≠ [] ∧
    ((processChange ⟨"pkg", ["1.0.0"], ["2.0.0"]⟩
          (fun s => s == "1.0.0") (fun _ => true)).filter
        (fun e => (e.downgradeType == DowngradeType.provenance) &&
          (e.toVersion == "2.0.0")) =
      [⟨"pkg", "1.0.0", "2.0.0", DowngradeType.provenance, none⟩] ∧
    ∀ dt, ((processChange ⟨"pkg", ["1.0.0"], ["2.0.0"]⟩
          (fun s => s == "1.0.0") (fun _ => true)).filter
        (fun e => (e.downgradeType == dt) && (e.toVersion == "2.0.0"))).length ≤ 1) := by
  have h := c1_provenance_downgrade_events ⟨"pkg", ["1.0.0"], ["2.0.0"]⟩
    (fun s => s == "1.0.0") (fun _ => true) "2.0.0"
    (by decide) (by decide) (by decide) (by decide)
  exact ⟨by decide, h.1 "1.0.0" (by decide) (by decide), h.2.2.2⟩
